import Mathlib

/-!
Verification of the translation-checker repository (`src/lib/index.js`).

The file embeds the validation engine of `src/lib/index.js` shallowly:
JS objects of parsed translation files become ordered association lists,
the two mustache regexes become an explicit scanner over character lists,
exceptions become `Except`, and the external collaborators (file discovery,
properties parsing, the `messageformat` compiler, the `./parse-name` and
`./errors` helpers, which are not part of `src/`) are either parameters of
the embedding (an `Env` record) or are modelled from the spec where noted.

Line numbers in comments refer to `src/lib/index.js`.
-/

/-- A JS runtime value held by one key of a parsed translation file: a string,
or some non-string value.  Non-string values are opaque to the code; only
their truthiness is observed (`!msgSrc`, line 111, and
`extraPlaceholders[msgKey]`, line 179), so they are modelled by that bit. -/
inductive JsVal where
  | str (s : String)
  | other (truthy : Bool)
deriving DecidableEq

/-- JS truthiness of a message value (the empty string is falsy). -/
def JsVal.truthy : JsVal → Bool
  | .str s => !(s == "")
  | .other b => b

/-- `typeof v === 'string'`. -/
def JsVal.isString : JsVal → Bool
  | .str _ => true
  | .other _ => false

/-- A parsed translation file: the ordered key/value entries of the JS object
returned by `parseProperties` (keys are unique within a file). -/
abbrev TranslationSet := List (String × JsVal)

/-- JS `\s` (the whitespace class of `MUSTACHE_MATCHER`), by code point. -/
def isJsSpace (c : Char) : Bool :=
  List.contains ([0x9, 0xA, 0xB, 0xC, 0xD, 0x20, 0xA0, 0x1680,
                  0x2028, 0x2029, 0x202F, 0x205F, 0x3000, 0xFEFF]) c.toNat
    || decide (0x2000 ≤ c.toNat ∧ c.toNat ≤ 0x200A)

/-- JS `\w`: ASCII letters, digits and underscore. -/
def isWordChar (c : Char) : Bool :=
  decide ('a' ≤ c ∧ c ≤ 'z') || decide ('A' ≤ c ∧ c ≤ 'Z')
    || decide ('0' ≤ c ∧ c ≤ '9') || c == '_'

/-- The character class `[\s\w.#^/'|]` inside `MUSTACHE_MATCHER` (line 8).
Code point 39 is the apostrophe. -/
def isMustacheInner (c : Char) : Bool :=
  isJsSpace c || isWordChar c || c == '.' || c == '#' || c == '^'
    || c == '/' || c.toNat == 39 || c == '|'

/-- The character class `[{}\s#^/']` of `MUSTACHE_REPLACER_MATCHER` (line 9):
the characters deleted by `s.replace(MUSTACHE_REPLACER_MATCHER, '')`. -/
def isReplacerChar (c : Char) : Bool :=
  c == '{' || c == '}' || isJsSpace c || c == '#' || c == '^'
    || c == '/' || c.toNat == 39

/-- One attempt of `MUSTACHE_MATCHER` (line 8) right after a leading `{{`:
a non-empty greedy run of class characters must follow, then `}}`.  Because
the class contains no brace, greediness cannot backtrack: the run is exactly
the maximal `takeWhile`, and the attempt succeeds iff the run is non-empty
and `}}` follows it.  Returns the whole matched span (braces included, as
`match` returns it) and the text after the span. -/
def matchAt (rest : List Char) : Option (List Char × List Char) :=
  if (rest.takeWhile isMustacheInner).isEmpty then none
  else
    match rest.dropWhile isMustacheInner with
    | '}' :: '}' :: tail =>
      some ('{' :: '{' :: (rest.takeWhile isMustacheInner ++ ['}', '}']), tail)
    | _ => none

/-- The match loop of `msg.match(/{{[\s\w.#^/'|]+}}/g)`: at each position try
to match `{{` followed by `matchAt`; on success continue after the match
(matches do not overlap), on failure advance one character.  `fuel` only
drives the recursion; it is started at `length + 1` and every step consumes
at least one character, so it never runs out. -/
def scanAux : Nat → List Char → List (List Char)
  | 0, _ => []
  | _ + 1, [] => []
  | fuel + 1, c :: cs =>
    if c = '{' ∧ cs.head? = some '{' then
      match matchAt cs.tail with
      | some spanTail => spanTail.1 :: scanAux fuel spanTail.2
      | none => scanAux fuel cs
    else scanAux fuel cs

/-- All matches of `MUSTACHE_MATCHER` in a string (`[]` when `match` gives
`null`). -/
def mustacheSpans (s : String) : List (List Char) :=
  scanAux (s.data.length + 1) s.data

/-- Line 121: `msgSrc.match(MUSTACHE_MATCHER) !== null`. -/
def hasMustache (s : String) : Bool :=
  !(mustacheSpans s).isEmpty

/-- Normalisation of one matched span: `span.replace(MUSTACHE_REPLACER_MATCHER, '')`
deletes every occurrence of a replacer-class character. -/
def normalizeSpan (span : List Char) : String :=
  String.mk (span.filter (fun c => !(isReplacerChar c)))

/-- Lines 186-191, `extractPlaceholdersKeysFromMsg(message)` on a string
input: match all mustache spans, then strip braces, whitespace and the
`# ^ / '` control characters from each. -/
def extractPlaceholdersKeysFromMsg (message : String) : List String :=
  (mustacheSpans message).map normalizeSpan

/-- A JS runtime exception of the embedded code. -/
inductive JsErr where
  | typeError
deriving DecidableEq

/-- Lines 186-191 with JS call semantics made explicit: `message.match(...)`
on a non-string receiver raises a `TypeError`. -/
def extractPlaceholdersKeysFromMsgJS : JsVal → Except JsErr (List String)
  | .str s => .ok (extractPlaceholdersKeysFromMsg s)
  | .other _ => .error .typeError

/-- Lines 169-172: `let msgPlaceholders = []; if (typeof msgSrc === 'string')
{ msgPlaceholders = extractPlaceholdersKeysFromMsg(msgSrc); }` — the guard
under which the extractor is reached, with the raised/not-raised outcome kept. -/
def guardedMsgPlaceholders (v : JsVal) : Except JsErr (List String) :=
  if v.isString then extractPlaceholdersKeysFromMsgJS v else .ok []

/-- The pure form of lines 169-172 used inside the index builder. -/
def msgValuePlaceholders : JsVal → List String
  | .str s => extractPlaceholdersKeysFromMsg s
  | .other _ => []

/-- Helper of `jsUniq`: keep the elements not yet seen. -/
def jsUniqAux (seen : List String) : List String → List String
  | [] => []
  | x :: xs =>
    if seen.contains x then jsUniqAux seen xs
    else x :: jsUniqAux (x :: seen) xs

/-- `_.uniq`: deduplication keeping the first occurrence of each element. -/
def jsUniq (l : List String) : List String := jsUniqAux [] l

/-- One value of the placeholder index: `_.uniq(...)` token lists stored at
line 178, or the raw secondary-set value passed through at line 180. -/
inductive PEntry where
  | toks (l : List String)
  | raw (v : JsVal)
deriving DecidableEq

/-- A placeholder index: the entries of the `result` object of
`extractPlaceholdersFromTranslations` (keys unique). -/
abbrev PlaceholderIndex := List (String × PEntry)

/-- JS truthiness of an index value: arrays are always truthy
(`if (msgPlaceholders)` line 124, `if (!templatePlaceholder)` line 126). -/
def PEntry.jsTruthy : PEntry → Bool
  | .toks _ => true
  | .raw v => v.truthy

/-- `templatePlaceholder.includes(el)` (line 135): membership for an array
entry, substring search for a string passed through at line 180.  A
non-string, non-array pass-through value has no usable `includes` in JS (a
primitive would raise); such entries never occur in a built index with
string-valued secondary sets, and the model makes the call total with `false`. -/
def PEntry.jsIncludes : PEntry → String → Bool
  | .toks l, el => l.contains el
  | .raw (.str s), el => decide (el.data <:+: s.data)
  | .raw (.other _), _ => false

/-- `msgPlaceholders.every(el => ...)` (line 135).  The per-file index only
ever stores `toks` entries (see `ownIndex_entry_toks`), so the `raw` case is
unreachable there; it is modelled as vacuously true. -/
def PEntry.jsEvery : PEntry → (String → Bool) → Bool
  | .toks l, p => l.all p
  | .raw _, _ => true

/-- The value of `msgPlaceholders` after lines 169-176 for one key of the
primary set: the placeholders of its own string value, then those of a
string value of the secondary set (`typeof extraPlaceholders[msgKey] ===
'string'`). -/
def combinedPlaceholders (extraPlaceholders : TranslationSet)
    (kv : String × JsVal) : List String :=
  msgValuePlaceholders kv.2 ++
    (match List.lookup kv.1 extraPlaceholders with
     | some (.str s) => extractPlaceholdersKeysFromMsg s
     | _ => [])

/-- Lines 165-184, `extractPlaceholdersFromTranslations(translations,
extraPlaceholders = {})`: for each key of the primary set, combine the
placeholders of its string value with those of a string value of the
secondary set; store the `_.uniq` of the combination when non-empty, else
pass the secondary value through verbatim when truthy, else omit the key. -/
def extractPlaceholdersFromTranslations
    (translations extraPlaceholders : TranslationSet) : PlaceholderIndex :=
  translations.filterMap (fun kv =>
    if (combinedPlaceholders extraPlaceholders kv).isEmpty then
      match List.lookup kv.1 extraPlaceholders with
      | some v => if v.truthy then some (kv.1, PEntry.raw v) else none
      | none => none
    else some (kv.1, PEntry.toks (jsUniq (combinedPlaceholders extraPlaceholders kv))))

/-- One structured validation error (the objects pushed at lines 113, 127,
137 and 152).  None of those object literals carries a `cause` property, so
the field is `Option` and the code always produces `none`. -/
structure Finding where
  lang : String
  error : String
  key : String
  message : String
  cause : Option String
deriving DecidableEq

/-- A single apostrophe, used by the JS template literals of the messages. -/
def apos : String := String.mk ([Char.ofNat 39])

def emptyFinding (lang msgKey : String) : Finding :=
  ⟨lang, "empty-message", msgKey,
    "Empty message found for key " ++ apos ++ msgKey ++ apos ++ " in " ++ apos ++ lang
      ++ apos ++ " translation", none⟩

def missedFinding (lang msgKey : String) : Finding :=
  ⟨lang, "missed-placeholder", msgKey,
    "Cannot compile " ++ apos ++ lang ++ apos ++ " translation with key " ++ apos
      ++ msgKey ++ apos
      ++ " has placeholders, but base translations does not have placeholders",
    none⟩

def wrongFinding (lang msgKey : String) : Finding :=
  ⟨lang, "wrong-placeholder", msgKey,
    "Cannot compile " ++ apos ++ lang ++ apos ++ " translation with key " ++ apos
      ++ msgKey ++ apos
      ++ " has placeholders that do not match any in the base translation provided",
    none⟩

def wrongMfFinding (lang msgKey msgSrc errMsg : String) : Finding :=
  ⟨lang, "wrong-messageformat", msgKey,
    "Cannot compile " ++ apos ++ lang ++ apos ++ " translation " ++ msgKey ++ " = "
      ++ apos ++ msgSrc ++ apos ++ " : " ++ errMsg, none⟩

/-- A constructed `MessageFormat` compiler: `compile` either succeeds
(`none`) or raises a syntax error carrying a message (`some errMsg`).
Modelled from the spec: `messageformat` is an external collaborator
(`compiler.compile(message)` fails with a syntax error on invalid grammar). -/
abbrev Compiler := String → Option String

/-- `fileLanguage` of `./parse-name` (not under `src/`).
Modelled from the spec: `languageCodeFromFileName(fileName) → language code`,
with the fixed convention `messages-XX.properties`. -/
def fileLanguage (fileName : String) : String :=
  String.mk (((fileName.data).drop 9).take ((fileName.data).length - 20))

/-- Lines 110-160, the per-message body of the validation loop of
`checkFileTranslations`: the findings pushed for one key.  `mf` is the
compiler constructed at lines 101-108 (`none` when construction failed or
`checkMessageformat` is off). -/
def checkMsgFindings (lang : String) (ownIndex : PlaceholderIndex)
    (templatePlaceholders : Option PlaceholderIndex) (mf : Option Compiler)
    (checkEmpties : Bool) (msgKey : String) (msgSrc : JsVal) : List Finding :=
  if !msgSrc.truthy then
    if checkEmpties then [emptyFinding lang msgKey] else []
  else
    match msgSrc with
    | .str s =>
      if hasMustache s then
        match templatePlaceholders with
        | some tpl =>
          match List.lookup msgKey ownIndex with
          | some ownE =>
            if ownE.jsTruthy then
              match List.lookup msgKey tpl with
              | some tplE =>
                if tplE.jsTruthy then
                  if !(ownE.jsEvery tplE.jsIncludes) then [wrongFinding lang msgKey]
                  else []
                else [missedFinding lang msgKey]
              | none => [missedFinding lang msgKey]
            else []
          | none => []
        | none => []
      else
        match mf with
        | some compiler =>
          match compiler s with
          | some errMsg => [wrongMfFinding lang msgKey s errMsg]
          | none => []
        | none => []
    | .other _ => []

/-- Instrumentation (not part of the source): the messages lines 148-159
hand to `mf.compile` for one key — `msgSrc` itself exactly when it is a
truthy string with no mustache span and a compiler exists. -/
def checkMsgCompiled (mf : Option Compiler) (msgSrc : JsVal) : List String :=
  if !msgSrc.truthy then []
  else
    match msgSrc with
    | .str s =>
      if hasMustache s then []
      else
        match mf with
        | some _ => [s]
        | none => []
    | .other _ => []

/-- Lines 92-163, `checkFileTranslations`: the findings of one file, in
key-iteration order. -/
def checkFileTranslations (mkMF : String → Option Compiler)
    (translations : TranslationSet) (fileName : String)
    (templatePlaceholders : Option PlaceholderIndex)
    (checkMessageformat checkEmpties : Bool) : List Finding :=
  ((translations.map (fun kv =>
    checkMsgFindings (fileLanguage fileName)
      (extractPlaceholdersFromTranslations translations [])
      templatePlaceholders
      (if checkMessageformat then mkMF (fileLanguage fileName) else none)
      checkEmpties kv.1 kv.2))).flatten

/-- The messages a run of `checkFileTranslations` hands to `mf.compile`. -/
def compileLog (mkMF : String → Option Compiler)
    (translations : TranslationSet) (fileName : String)
    (checkMessageformat : Bool) : List String :=
  ((translations.map (fun kv =>
    checkMsgCompiled
      (if checkMessageformat then mkMF (fileLanguage fileName) else none)
      kv.2))).flatten

/-- Line 11. -/
def EN_FILE : String := "messages-en.properties"

/-- Line 12. -/
def EX_FILE : String := "messages-ex.properties"

/-- The external collaborators consumed by `checkTranslations`, for a fixed
directory: `translationFileNames(dir, languages)` (from `./parse-name`),
`parseProperties(path.join(dir, fileName))` (from `./fs`) and the
`MessageFormat` constructor (`none` when it throws for an unknown language).
All are modelled from the spec interfaces, since their code is not under
`src/`; parsing is total here (an I/O or parse failure would abort a run
unchanged, which no claim exercises). -/
structure Env where
  discover : Option (List String) → List String
  parse : String → TranslationSet
  mkMF : String → Option Compiler

/-- The object the free variable `options` of `checkTranslations` would have
to denote: the body reads exactly the properties `languages`,
`checkPlaceholders`, `checkMessageformat` and `checkEmpties` from it (their
truthiness, for the three booleans). -/
structure OptionsObj where
  languages : Option (List String)
  checkPlaceholders : Bool
  checkMessageformat : Bool
  checkEmpties : Bool

/-- The destructured parameter of `checkTranslations` (line 51): the values
the caller passed for the three switches, `none` when omitted (the
destructuring defaults them to `true`).  The body never reads these. -/
structure CallOpts where
  checkPlaceholders : Option Bool
  checkMessageformat : Option Bool
  checkEmpties : Option Bool

/-- Line 54: `await translationFileNames(dir, options.languages)`. -/
def bodyFileNames (env : Env) (o : OptionsObj) : List String :=
  env.discover o.languages

/-- Lines 55-61: `enTranslations` after the `LoadingTemplates` phase. -/
def bodyEnTranslations (env : Env) (o : OptionsObj) : TranslationSet :=
  if o.checkPlaceholders && (bodyFileNames env o).contains EN_FILE then
    env.parse EN_FILE
  else []

/-- Lines 56-64: `exTranslations` after the `LoadingTemplates` phase. -/
def bodyExTranslations (env : Env) (o : OptionsObj) : TranslationSet :=
  if o.checkPlaceholders && (bodyFileNames env o).contains EX_FILE then
    env.parse EX_FILE
  else []

/-- Lines 57-66: `templatePlaceholders` (`null` unless
`options.checkPlaceholders`). -/
def bodyTemplate (env : Env) (o : OptionsObj) : Option PlaceholderIndex :=
  if o.checkPlaceholders then
    some (extractPlaceholdersFromTranslations (bodyEnTranslations env o)
      (bodyExTranslations env o))
  else none

/-- Lines 68-75: the translation set used for one discovered file (the base
and extra sets are reused instead of being parsed again). -/
def translationsFor (env : Env) (o : OptionsObj) (fileName : String) : TranslationSet :=
  if o.checkPlaceholders && (fileName == EN_FILE) then bodyEnTranslations env o
  else if o.checkPlaceholders && (fileName == EX_FILE) then bodyExTranslations env o
  else env.parse fileName

/-- Lines 76-83: the findings contributed by one discovered file. -/
def fileFindings (env : Env) (o : OptionsObj) (fileName : String) : List Finding :=
  checkFileTranslations env.mkMF (translationsFor env o fileName) fileName
    (bodyTemplate env o) o.checkMessageformat o.checkEmpties

/-- Lines 67-84: the `errors` array after the loop — every file except
`EX_FILE` contributes its findings, in discovery order. -/
def bodyErrors (env : Env) (o : OptionsObj) : List Finding :=
  ((((bodyFileNames env o).filter (fun f => f != EX_FILE)).map
    (fileFindings env o))).flatten

/-- The file names handed to `parseProperties` during one run of the body,
in call order (lines 59-64 then the loop, lines 67-75). -/
def bodyParseLog (env : Env) (o : OptionsObj) : List String :=
  (if o.checkPlaceholders && (bodyFileNames env o).contains EN_FILE then [EN_FILE] else [])
    ++ (if o.checkPlaceholders && (bodyFileNames env o).contains EX_FILE then [EX_FILE] else [])
    ++ ((bodyFileNames env o).filter
        (fun f => !(o.checkPlaceholders && (f == EN_FILE))
          && !(o.checkPlaceholders && (f == EX_FILE))))

/-- How a run of `checkTranslations` ends abnormally: the `ReferenceError`
raised by reading the unbound identifier `options` (line 54), or the
`TranslationException` of `./errors` (not under `src/`), modelled from the
spec as a distinguished error kind carrying a message, the findings and the
file names. -/
inductive RunError where
  | referenceError
  | translationException (message : String) (errors : List Finding)
      (fileNames : List String)
deriving DecidableEq

/-- Lines 53-89: the body of `checkTranslations` as it executes when the
free variable `options` denotes `o` — lines 85-89 aggregate or return. -/
def checkTranslationsBody (env : Env) (o : OptionsObj) :
    Except RunError (List String) :=
  if (bodyErrors env o).isEmpty then .ok (bodyFileNames env o)
  else .error (.translationException ("Error trying to compile translations")
    (bodyErrors env o) (bodyFileNames env o))

/-- Lines 49-90, `checkTranslations(dir, {...}={})`.  The destructured
per-call options `callerOpts` are bound but never read: the body reads the
free identifier `options`, for which the module contains no declaration, so
the JS semantics of a call is fixed by `optionsVar`, the (non-)resolution of
that free variable — `none` (the state of the shipped module) makes line 54
raise a `ReferenceError` before any collaborator is called. -/
def checkTranslations (env : Env) (callerOpts : CallOpts)
    (optionsVar : Option OptionsObj) : Except RunError (List String) :=
  let _cp := callerOpts.checkPlaceholders.getD true
  let _cm := callerOpts.checkMessageformat.getD true
  let _ce := callerOpts.checkEmpties.getD true
  match optionsVar with
  | none => .error .referenceError
  | some o => checkTranslationsBody env o

/-- Findings for key `k` with kind `e` in a findings list. -/
def countFindings (l : List Finding) (k e : String) : Nat :=
  (l.filter (fun fd => fd.key == k && fd.error == e)).length

/-! ### Scanner lemmas -/

theorem scanAux_nil (fuel : Nat) : scanAux fuel [] = [] := by
  cases fuel <;> rfl

theorem takeWhile_append_all {p : Char → Bool} {l : List Char} (r : List Char)
    (h : ∀ c ∈ l, p c = true) : (l ++ r).takeWhile p = l ++ r.takeWhile p := by
  induction l with
  | nil => simp
  | cons a l ih =>
    rw [List.cons_append, List.takeWhile_cons_of_pos (h a (List.mem_cons_self a l)),
      ih (fun c hc => h c (List.mem_cons_of_mem a hc))]
    rfl

theorem dropWhile_append_all {p : Char → Bool} {l : List Char} (r : List Char)
    (h : ∀ c ∈ l, p c = true) : (l ++ r).dropWhile p = r.dropWhile p := by
  induction l with
  | nil => simp
  | cons a l ih =>
    rw [List.cons_append, List.dropWhile_cons_of_pos (h a (List.mem_cons_self a l)),
      ih (fun c hc => h c (List.mem_cons_of_mem a hc))]

theorem matchAt_some {rest : List Char} {st : List Char × List Char}
    (h : matchAt rest = some st) :
    ∃ run, st.1 = '{' :: '{' :: (run ++ ['}', '}']) ∧ run ≠ [] ∧
      ∀ c ∈ run, isMustacheInner c = true := by
  unfold matchAt at h
  split at h
  · exact absurd h (by simp)
  · rename_i hne
    split at h
    · rename_i tail2 heq
      cases h
      refine ⟨rest.takeWhile isMustacheInner, rfl, ?_, ?_⟩
      · intro hnil
        rw [hnil] at hne
        exact hne rfl
      · intro c hc
        exact List.mem_takeWhile_imp hc
    · exact absurd h (by simp)

theorem matchAt_run (run rest : List Char) (hrun : run ≠ [])
    (hinner : ∀ c ∈ run, isMustacheInner c = true) :
    matchAt (run ++ '}' :: '}' :: rest) =
      some ('{' :: '{' :: (run ++ ['}', '}']), rest) := by
  have htw : (run ++ '}' :: '}' :: rest).takeWhile isMustacheInner = run := by
    rw [takeWhile_append_all _ hinner, List.takeWhile_cons_of_neg (by decide)]
    simp
  have hdw : (run ++ '}' :: '}' :: rest).dropWhile isMustacheInner = '}' :: '}' :: rest := by
    rw [dropWhile_append_all _ hinner, List.dropWhile_cons_of_neg (by decide)]
  unfold matchAt
  rw [htw, hdw]
  rw [if_neg (by simp [hrun])]
  rfl

theorem scanAux_cons_match (fuel : Nat) (rest : List Char)
    (st : List Char × List Char) (h : matchAt rest = some st) :
    scanAux (fuel + 1) ('{' :: '{' :: rest) = st.1 :: scanAux fuel st.2 := by
  rw [scanAux]
  rw [if_pos ⟨rfl, rfl⟩]
  simp only [List.tail_cons]
  rw [h]

theorem mem_scanAux {fuel : Nat} {cs span : List Char} (h : span ∈ scanAux fuel cs) :
    ∃ run, span = '{' :: '{' :: (run ++ ['}', '}']) ∧ run ≠ [] ∧
      ∀ c ∈ run, isMustacheInner c = true := by
  induction fuel generalizing cs with
  | zero => simp [scanAux] at h
  | succ fuel ih =>
    cases cs with
    | nil => simp [scanAux] at h
    | cons c cs =>
      rw [scanAux] at h
      split at h
      · split at h
        · rename_i st heq
          rcases List.mem_cons.mp h with h1 | h1
          · subst h1
            exact matchAt_some heq
          · exact ih h1
        · exact ih h
      · exact ih h

theorem extract_token_chars {m t : String} (ht : t ∈ extractPlaceholdersKeysFromMsg m) :
    ∀ c ∈ t.data, isMustacheInner c = true ∧ isReplacerChar c = false := by
  rcases List.mem_map.mp ht with ⟨span, hspan, hts⟩
  obtain ⟨run, hshape, hne, hinner⟩ := mem_scanAux hspan
  intro c hc
  rw [← hts] at hc
  have hc2 : c ∈ span.filter (fun c => !(isReplacerChar c)) := hc
  rw [List.mem_filter] at hc2
  obtain ⟨hcmem, hcrep⟩ := hc2
  have hrep : isReplacerChar c = false := by simpa using hcrep
  refine ⟨?_, hrep⟩
  rw [hshape] at hcmem
  rcases List.mem_cons.mp hcmem with h1 | h1
  · rw [h1] at hrep; exact absurd hrep (by decide)
  rcases List.mem_cons.mp h1 with h2 | h2
  · rw [h2] at hrep; exact absurd hrep (by decide)
  rcases List.mem_append.mp h2 with h3 | h3
  · exact hinner c h3
  · rcases List.mem_cons.mp h3 with h4 | h4
    · rw [h4] at hrep; exact absurd hrep (by decide)
    · rcases List.mem_cons.mp h4 with h5 | h5
      · rw [h5] at hrep; exact absurd hrep (by decide)
      · cases h5

theorem string_data_append (s u : String) : (s ++ u).data = s.data ++ u.data := by
  cases s; cases u; rfl

theorem mk_data_eq (t : String) : String.mk t.data = t := by
  cases t; rfl

theorem extract_roundtrip (m t : String) (ht : t ∈ extractPlaceholdersKeysFromMsg m)
    (hne : t ≠ "") :
    extractPlaceholdersKeysFromMsg ("\x7b\x7b" ++ t ++ "\x7d\x7d") = [t] := by
  have hchars := extract_token_chars ht
  have htd : t.data ≠ [] := by
    intro h0
    apply hne
    rw [← mk_data_eq t, h0]
  have hinner : ∀ c ∈ t.data, isMustacheInner c = true := fun c hc => (hchars c hc).1
  have hd : ("\x7b\x7b" ++ t ++ "\x7d\x7d").data = '{' :: '{' :: (t.data ++ ['}', '}']) := by
    rw [string_data_append, string_data_append]
    rfl
  have hmatch := matchAt_run t.data [] htd hinner
  have hscan : scanAux (('{' :: '{' :: (t.data ++ ['}', '}'])).length + 1)
      ('{' :: '{' :: (t.data ++ ['}', '}'])) = ['{' :: '{' :: (t.data ++ ['}', '}'])] := by
    show scanAux ((t.data ++ ['}', '}']).length + 2 + 1) _ = _
    rw [scanAux_cons_match _ _ _ hmatch]
    rfl
  have hfil : ('{' :: '{' :: (t.data ++ ['}', '}'])).filter (fun c => !(isReplacerChar c))
      = t.data := by
    rw [List.filter_cons_of_neg (by decide), List.filter_cons_of_neg (by decide),
      List.filter_append, List.filter_cons_of_neg (by decide),
      List.filter_cons_of_neg (by decide), List.filter_nil, List.append_nil]
    exact List.filter_eq_self.mpr (fun c hc => by simp [(hchars c hc).2])
  rw [extractPlaceholdersKeysFromMsg, mustacheSpans, hd, hscan]
  rw [List.map_cons, List.map_nil, normalizeSpan, hfil, mk_data_eq]

/-! ### Association-list, uniq and index lemmas -/

theorem lookup_mem {β : Type} {k : String} {b : β} {l : List (String × β)}
    (h : List.lookup k l = some b) : (k, b) ∈ l := by
  induction l with
  | nil => cases h
  | cons kv l ih =>
    obtain ⟨k2, b2⟩ := kv
    rw [List.lookup] at h
    cases hbeq : (k == k2) with
    | true =>
      rw [hbeq] at h
      cases h
      have : k = k2 := eq_of_beq hbeq
      rw [this]
      exact List.mem_cons_self _ _
    | false =>
      rw [hbeq] at h
      exact List.mem_cons_of_mem _ (ih h)

theorem jsUniq_ne_nil {l : List String} (h : l ≠ []) : jsUniq l ≠ [] := by
  cases l with
  | nil => exact absurd rfl h
  | cons x xs => simp [jsUniq, jsUniqAux]

theorem extract_entry {translations extra : TranslationSet} {k : String} {e : PEntry}
    (h : (k, e) ∈ extractPlaceholdersFromTranslations translations extra) :
    (∃ l, e = PEntry.toks l ∧ l ≠ []) ∨
      (∃ v, e = PEntry.raw v ∧ v.truthy = true ∧ List.lookup k extra = some v) := by
  rw [extractPlaceholdersFromTranslations] at h
  rcases List.mem_filterMap.mp h with ⟨kv, hkv, heq⟩
  split at heq
  · rename_i hemp
    split at heq
    · rename_i v hlk
      split at heq
      · rename_i htr
        cases heq
        exact Or.inr ⟨v, rfl, htr, hlk⟩
      · cases heq
    · cases heq
  · rename_i hemp
    cases heq
    refine Or.inl ⟨_, rfl, jsUniq_ne_nil ?_⟩
    intro h0
    rw [h0] at hemp
    exact hemp rfl

theorem ownIndex_entry_toks {translations : TranslationSet} {k : String} {e : PEntry}
    (h : (k, e) ∈ extractPlaceholdersFromTranslations translations []) :
    ∃ l, e = PEntry.toks l ∧ l ≠ [] := by
  rcases extract_entry h with h1 | ⟨v, _, _, hlk⟩
  · exact h1
  · cases hlk

theorem checkMsg_key {lang : String} {own : PlaceholderIndex}
    {tpl : Option PlaceholderIndex} {mf : Option Compiler} {ce : Bool}
    {k : String} {v : JsVal} :
    ∀ fd ∈ checkMsgFindings lang own tpl mf ce k v, fd.key = k := by
  intro fd hfd
  unfold checkMsgFindings at hfd
  split at hfd
  · split at hfd <;> simp_all [emptyFinding]
  · cases v with
    | str s =>
      dsimp only at hfd
      repeat' split at hfd
      all_goals
        simp_all [emptyFinding, missedFinding, wrongFinding, wrongMfFinding]
    | other b => simp at hfd

theorem countFindings_append (l₁ l₂ : List Finding) (k e : String) :
    countFindings (l₁ ++ l₂) k e = countFindings l₁ k e + countFindings l₂ k e := by
  simp [countFindings, List.filter_append]

theorem countFindings_zero {l : List Finding} {k : String} (e : String)
    (h : ∀ fd ∈ l, fd.key ≠ k) : countFindings l k e = 0 := by
  rw [countFindings, List.length_eq_zero, List.filter_eq_nil_iff]
  intro fd hfd
  simp [h fd hfd]

theorem flatten_keys {g : String × JsVal → List Finding}
    (hkey : ∀ kv fd, fd ∈ g kv → fd.key = kv.1) {l : List (String × JsVal)} :
    ∀ fd ∈ (l.map g).flatten, ∃ kv ∈ l, fd.key = kv.1 := by
  intro fd hfd
  rcases List.mem_flatten.mp hfd with ⟨gl, hgl, hfd2⟩
  rcases List.mem_map.mp hgl with ⟨kv, hkv, hglkv⟩
  exact ⟨kv, hkv, hkey kv fd (hglkv ▸ hfd2)⟩

theorem count_flatten_unique (g : String × JsVal → List Finding)
    (hkey : ∀ kv fd, fd ∈ g kv → fd.key = kv.1)
    {l : List (String × JsVal)} {k : String} {v : JsVal} (e : String)
    (hnd : (l.map Prod.fst).Nodup) (hm : (k, v) ∈ l) :
    countFindings ((l.map g).flatten) k e = countFindings (g (k, v)) k e := by
  induction l with
  | nil => cases hm
  | cons kv l ih =>
    rw [List.map_cons, List.flatten_cons, countFindings_append]
    rw [List.map_cons, List.nodup_cons] at hnd
    rcases List.mem_cons.mp hm with heq | htail
    · have hz : countFindings ((l.map g).flatten) k e = 0 := by
        apply countFindings_zero
        intro fd hfd
        rcases flatten_keys hkey fd hfd with ⟨kv2, hkv2, hkey2⟩
        intro hkk
        apply hnd.1
        have : kv.1 = kv2.1 := by rw [← heq, ← hkk, hkey2]
        rw [this]
        exact List.mem_map.mpr ⟨kv2, hkv2, rfl⟩
      rw [hz, ← heq, Nat.add_zero]
    · have hne : kv.1 ≠ k := by
        intro hkk
        exact hnd.1 (hkk ▸ List.mem_map.mpr ⟨(k, v), htail, rfl⟩)
      rw [countFindings_zero e (fun fd hfd hk => hne (by rw [← hk, hkey kv fd hfd]))]
      rw [Nat.zero_add]
      exact ih hnd.2 htail

theorem hasMustache_true_iff {s : String} : hasMustache s = true ↔ mustacheSpans s ≠ [] := by
  simp [hasMustache, List.isEmpty_iff]

theorem str_truthy_of_spans {s : String} (h : mustacheSpans s ≠ []) :
    (JsVal.str s).truthy = true := by
  rcases hs : (s == "") with _ | _
  · simp [JsVal.truthy, hs]
  · exfalso
    apply h
    have : s = "" := eq_of_beq hs
    rw [this]
    rfl

theorem checkMsgFindings_missed {lang : String} {own tpl : PlaceholderIndex}
    {mf : Option Compiler} {ce : Bool} {k s : String} {ownE : PEntry}
    (hstr : (JsVal.str s).truthy = true) (hs : hasMustache s = true)
    (hown : List.lookup k own = some ownE) (howntr : ownE.jsTruthy = true)
    (htpl : List.lookup k tpl = none) :
    checkMsgFindings lang own (some tpl) mf ce k (JsVal.str s) =
      [missedFinding lang k] := by
  simp [checkMsgFindings, hstr, hs, hown, howntr, htpl]

theorem checkMsgFindings_present {lang : String} {own tpl : PlaceholderIndex}
    {mf : Option Compiler} {ce : Bool} {k s : String} {ownE tplE : PEntry}
    (hstr : (JsVal.str s).truthy = true) (hs : hasMustache s = true)
    (hown : List.lookup k own = some ownE) (howntr : ownE.jsTruthy = true)
    (htpl : List.lookup k tpl = some tplE) (htpltr : tplE.jsTruthy = true) :
    checkMsgFindings lang own (some tpl) mf ce k (JsVal.str s) =
      (if !(ownE.jsEvery tplE.jsIncludes) then [wrongFinding lang k] else []) := by
  simp only [checkMsgFindings, hstr, Bool.not_true, Bool.false_eq_true, if_false, hs, if_true,
    hown, howntr, htpl, htpltr]

theorem sublist_flatten_of_mem {α : Type} {l : List (List α)} {x : List α} (h : x ∈ l) :
    x.Sublist l.flatten := by
  induction l with
  | nil => cases h
  | cons a l ih =>
    rw [List.flatten_cons]
    rcases List.mem_cons.mp h with heq | h2
    · rw [heq]
      exact List.sublist_append_left _ _
    · exact (ih h2).trans (List.sublist_append_right _ _)

theorem mem_checkMsgCompiled {mf : Option Compiler} {v : JsVal} {m : String}
    (h : m ∈ checkMsgCompiled mf v) :
    v = JsVal.str m ∧ hasMustache m = false ∧ ∃ c, mf = some c := by
  unfold checkMsgCompiled at h
  split at h
  · cases h
  · rename_i htr
    cases v with
    | str s =>
      dsimp only at h
      split at h
      · cases h
      · rename_i hmus
        split at h
        · rcases List.mem_cons.mp h with heq | h2
          · subst heq
            exact ⟨rfl, by simpa using hmus, _, rfl⟩
          · cases h2
        · cases h
    | other b => simp at h

theorem countFindings_single_same (fd : Finding) (k e : String)
    (hk : fd.key = k) (he : fd.error = e) : countFindings [fd] k e = 1 := by
  simp [countFindings, hk, he]

theorem countFindings_single_other (fd : Finding) (k e : String)
    (hne : fd.error ≠ e) : countFindings [fd] k e = 0 := by
  simp [countFindings]
  intro _
  simp [hne]

theorem all_eq_false_exists {p : String → Bool} {l : List String} (h : l.all p = false) :
    ∃ x ∈ l, p x = false := by
  induction l with
  | nil => cases h
  | cons a l ih =>
    rw [List.all_cons] at h
    cases hpa : p a with
    | false => exact ⟨a, List.mem_cons_self a l, hpa⟩
    | true =>
      rw [hpa, Bool.true_and] at h
      rcases ih h with ⟨x, hx, hpx⟩
      exact ⟨x, List.mem_cons_of_mem a hx, hpx⟩

/-! ### The claims -/

/-- **C3.**  For every key whose message contains a placeholder span and has
a non-empty entry in the file's own per-key placeholder index, given a
template index: if the template index lacks the key entirely, exactly one
missed-placeholder finding (and never wrong-placeholder) is emitted for that
key; if the key is present in the template index with a token-list entry, a
wrong-placeholder finding is emitted iff some of the file's placeholder
tokens for that key is absent from the template's token set (and no
missed-placeholder finding), so identical sets emit no placeholder finding
regardless of token order. -/
theorem claim_c3 (mkMF : String → Option Compiler) (translations : TranslationSet)
    (fileName : String) (tpl : PlaceholderIndex) (cmf ce : Bool)
    (k s : String) (own : List String)
    (hnd : (translations.map Prod.fst).Nodup)
    (hmem : (k, JsVal.str s) ∈ translations)
    (hspan : mustacheSpans s ≠ [])
    (hown : List.lookup k (extractPlaceholdersFromTranslations translations []) =
      some (PEntry.toks own))
    (hone : own ≠ []) :
    (List.lookup k tpl = none →
      countFindings (checkFileTranslations mkMF translations fileName (some tpl) cmf ce)
          k ("missed-placeholder") = 1 ∧
      countFindings (checkFileTranslations mkMF translations fileName (some tpl) cmf ce)
          k ("wrong-placeholder") = 0) ∧
    (∀ T, List.lookup k tpl = some (PEntry.toks T) →
      (countFindings (checkFileTranslations mkMF translations fileName (some tpl) cmf ce)
          k ("wrong-placeholder") = 1 ↔ ∃ p ∈ own, p ∉ T) ∧
      countFindings (checkFileTranslations mkMF translations fileName (some tpl) cmf ce)
          k ("missed-placeholder") = 0) := by
  have hs : hasMustache s = true := hasMustache_true_iff.mpr hspan
  have hstr := str_truthy_of_spans hspan
  have howntr : (PEntry.toks own).jsTruthy = true := rfl
  have hrw : ∀ e, countFindings
      (checkFileTranslations mkMF translations fileName (some tpl) cmf ce) k e
      = countFindings (checkMsgFindings (fileLanguage fileName)
          (extractPlaceholdersFromTranslations translations []) (some tpl)
          (if cmf then mkMF (fileLanguage fileName) else none) ce k (JsVal.str s)) k e := by
    intro e
    unfold checkFileTranslations
    exact count_flatten_unique _ (fun kv fd hfd => checkMsg_key fd hfd) e hnd hmem
  constructor
  · intro htpl
    constructor
    · rw [hrw, checkMsgFindings_missed hstr hs hown howntr htpl]
      exact countFindings_single_same _ _ _ rfl rfl
    · rw [hrw, checkMsgFindings_missed hstr hs hown howntr htpl]
      exact countFindings_single_other (missedFinding (fileLanguage fileName) k) k
        ("wrong-placeholder") (by simp [missedFinding])
  · intro T htpl
    have htpltr : (PEntry.toks T).jsTruthy = true := rfl
    have hmsg := @checkMsgFindings_present (fileLanguage fileName)
      (extractPlaceholdersFromTranslations translations []) tpl
      (if cmf then mkMF (fileLanguage fileName) else none) ce k s
      (PEntry.toks own) (PEntry.toks T) hstr hs hown howntr htpl htpltr
    by_cases hall : (own.all (fun el => T.contains el)) = true
    · have hmsg2 : checkMsgFindings (fileLanguage fileName)
          (extractPlaceholdersFromTranslations translations []) (some tpl)
          (if cmf then mkMF (fileLanguage fileName) else none) ce k (JsVal.str s) = [] := by
        rw [hmsg]
        have hev : ((PEntry.toks own).jsEvery (PEntry.toks T).jsIncludes) = true := hall
        rw [hev]
        rfl
      constructor
      · constructor
        · intro h0
          rw [hrw, hmsg2] at h0
          exact absurd h0 (by simp [countFindings])
        · rintro ⟨p, hp, hnp⟩
          exact absurd (List.elem_iff.mp (List.all_eq_true.mp hall p hp)) hnp
      · rw [hrw, hmsg2]
        simp [countFindings]
    · have hallf : own.all (fun el => T.contains el) = false := by
        cases hx : own.all (fun el => T.contains el) with
        | true => exact absurd hx hall
        | false => rfl
      have hmsg2 : checkMsgFindings (fileLanguage fileName)
          (extractPlaceholdersFromTranslations translations []) (some tpl)
          (if cmf then mkMF (fileLanguage fileName) else none) ce k (JsVal.str s) =
          [wrongFinding (fileLanguage fileName) k] := by
        rw [hmsg]
        have : ((PEntry.toks own).jsEvery (PEntry.toks T).jsIncludes) = false := hallf
        rw [this]
        rfl
      constructor
      · constructor
        · intro _
          rcases all_eq_false_exists hallf with ⟨p, hp, hpf⟩
          refine ⟨p, hp, fun hmemT => ?_⟩
          have hpt : T.contains p = true := List.elem_iff.mpr hmemT
          rw [hpt] at hpf
          cases hpf
        · intro _
          rw [hrw, hmsg2]
          exact countFindings_single_same _ _ _ rfl rfl
      · rw [hrw, hmsg2]
        exact countFindings_single_other (wrongFinding (fileLanguage fileName) k) k
          ("missed-placeholder") (by simp [wrongFinding])

def trC3 : TranslationSet := [("greeting", JsVal.str ("Hola \x7b\x7bnombre\x7d\x7d"))]

def tplC3 : PlaceholderIndex := [("greeting", PEntry.toks (["name"]))]

/-- Witness for C3: scenario A of the spec, evaluated concretely. -/
theorem claim_c3_witness :
    countFindings (checkFileTranslations (fun _ => none) trC3 ("messages-es.properties")
      (some tplC3) true true) ("greeting") ("wrong-placeholder") = 1 :=
  (((claim_c3 (fun _ => none) trC3 ("messages-es.properties") tplC3 true true ("greeting")
      ("Hola \x7b\x7bnombre\x7d\x7d") (["nombre"]) (by decide) (by decide) (by decide)
      (by decide) (by decide)).2 (["name"]) (by decide)).1).mpr
    ⟨"nombre", by decide, by decide⟩

def mkMFC4 : String → Option Compiler :=
  fun _ => some (fun _ => some ("Expected , but o found"))

def trC4 : TranslationSet :=
  [("plural", JsVal.str ("\x7bcount, plural, one\x7b1\x7d other\x7b\x7d"))]

/-- **C4.**  The claim says every wrong-messageformat finding carries the
compiler error as a non-null `cause`.  The object pushed at lines 152-157
has no `cause` property at all, although the JSDoc example (line 44) shows
one: on the spec's scenario D the emitted finding has `cause = none`. -/
theorem claim_c4 :
    checkFileTranslations mkMFC4 trC4 ("messages-hi.properties") none true true =
      [wrongMfFinding ("hi") ("plural")
        ("\x7bcount, plural, one\x7b1\x7d other\x7b\x7d") ("Expected , but o found")] ∧
    (wrongMfFinding ("hi") ("plural") ("\x7bcount, plural, one\x7b1\x7d other\x7b\x7d")
      ("Expected , but o found")).error = "wrong-messageformat" ∧
    (wrongMfFinding ("hi") ("plural") ("\x7bcount, plural, one\x7b1\x7d other\x7b\x7d")
      ("Expected , but o found")).cause = none :=
  ⟨by decide, rfl, rfl⟩

/-- **C5.**  A message with a placeholder span is never passed to the format
compiler; compilation is attempted only when `checkMessageformat` is on and
a compiler was constructed for the file's language; and a failed compiler
construction silently disables format checking for the whole file — the
run behaves exactly as if `checkMessageformat` were off. -/
theorem claim_c5 (mkMF : String → Option Compiler) (translations : TranslationSet)
    (fileName : String) (tpl : Option PlaceholderIndex) (cmf ce : Bool) :
    (∀ m ∈ compileLog mkMF translations fileName cmf, mustacheSpans m = []) ∧
    (compileLog mkMF translations fileName cmf ≠ [] →
      cmf = true ∧ ∃ c, mkMF (fileLanguage fileName) = some c) ∧
    (mkMF (fileLanguage fileName) = none →
      checkFileTranslations mkMF translations fileName tpl true ce =
        checkFileTranslations mkMF translations fileName tpl false ce) := by
  refine ⟨?_, ?_, ?_⟩
  · intro m hm
    unfold compileLog at hm
    rcases List.mem_flatten.mp hm with ⟨gl, hgl, hm2⟩
    rcases List.mem_map.mp hgl with ⟨kv, hkv, hglkv⟩
    rcases mem_checkMsgCompiled (hglkv ▸ hm2) with ⟨_, hmus, _⟩
    have : (mustacheSpans m).isEmpty = true := by
      unfold hasMustache at hmus
      cases hx : (mustacheSpans m).isEmpty with
      | true => rfl
      | false =>
        rw [hx] at hmus
        cases hmus
    exact List.isEmpty_iff.mp this
  · intro hne
    rcases List.exists_mem_of_ne_nil _ hne with ⟨m, hm⟩
    unfold compileLog at hm
    rcases List.mem_flatten.mp hm with ⟨gl, hgl, hm2⟩
    rcases List.mem_map.mp hgl with ⟨kv, hkv, hglkv⟩
    rcases mem_checkMsgCompiled (hglkv ▸ hm2) with ⟨_, _, c, hc⟩
    cases hcmf : cmf with
    | false =>
      rw [hcmf] at hc
      cases hc
    | true =>
      rw [hcmf] at hc
      exact ⟨rfl, c, by simpa using hc⟩
  · intro h
    unfold checkFileTranslations
    simp [h]

def mkMFC5 : String → Option Compiler :=
  fun l => if l == ("hi") then some (fun _ => none) else none

def trC5 : TranslationSet := [("a", JsVal.str ("hello"))]

/-- Witness for C5: a plain message is compiled, so the log is non-empty,
which forces `checkMessageformat = true` and a constructed compiler. -/
theorem claim_c5_witness :
    mustacheSpans ("hello") = [] ∧
    (true = true ∧ ∃ c, mkMFC5 (fileLanguage ("messages-hi.properties")) = some c) :=
  ⟨(claim_c5 mkMFC5 trC5 ("messages-hi.properties") none true true).1 ("hello") (by decide),
   (claim_c5 mkMFC5 trC5 ("messages-hi.properties") none true true).2.1 (by decide)⟩

/-- **C7.**  Every entry the placeholder-index builder stores is truthy:
either a non-empty token list (`_.uniq` of a non-empty combination, line
178) or the secondary set's own value passed through verbatim, which the
guard of line 179 requires to be truthy — the index never stores an empty
placeholder set. -/
theorem claim_c7 (translations extra : TranslationSet) (k : String) (e : PEntry)
    (h : (k, e) ∈ extractPlaceholdersFromTranslations translations extra) :
    e.jsTruthy = true ∧
      ((∃ l, e = PEntry.toks l ∧ l ≠ []) ∨
       (∃ v, e = PEntry.raw v ∧ v.truthy = true ∧ List.lookup k extra = some v)) := by
  have h2 := extract_entry h
  refine ⟨?_, h2⟩
  rcases h2 with ⟨l, he, _⟩ | ⟨v, he, htr, _⟩
  · rw [he]
    rfl
  · rw [he]
    exact htr

/-- Witness for C7 at a concrete index entry. -/
theorem claim_c7_witness :
    (("k", PEntry.toks (["a"])) ∈
      extractPlaceholdersFromTranslations ([("k", JsVal.str ("x \x7b\x7ba\x7d\x7d"))]) ([])) ∧
    (PEntry.toks (["a"])).jsTruthy = true :=
  ⟨by decide,
   (claim_c7 ([("k", JsVal.str ("x \x7b\x7ba\x7d\x7d"))]) ([]) ("k") (PEntry.toks (["a"]))
     (by decide)).1⟩

/-- **C8.**  For every non-string input the (guarded) placeholder extraction
of lines 169-172 yields the empty list and raises nothing: the `typeof`
guard keeps the non-string value away from `message.match`. -/
theorem claim_c8 (v : JsVal) (h : v.isString = false) :
    guardedMsgPlaceholders v = Except.ok [] ∧ msgValuePlaceholders v = [] := by
  cases v with
  | str s => simp [JsVal.isString] at h
  | other b => exact ⟨rfl, rfl⟩

/-- Witness for C8 at a concrete non-string value. -/
theorem claim_c8_witness :
    (JsVal.other true).isString = false ∧
      guardedMsgPlaceholders (JsVal.other true) = Except.ok [] :=
  ⟨rfl, (claim_c8 (JsVal.other true) rfl).1⟩

/-- **C9 (counterexample).**  Re-extraction is not stable for every token:
the span `{{#}}` normalises to the empty token, and re-extracting the
re-wrapped empty token yields nothing instead of the same token. -/
theorem claim_c9_counterexample :
    ("" ∈ extractPlaceholdersKeysFromMsg ("\x7b\x7b#\x7d\x7d")) ∧
    extractPlaceholdersKeysFromMsg ("\x7b\x7b" ++ "" ++ "\x7d\x7d") = [] ∧
    extractPlaceholdersKeysFromMsg ("\x7b\x7b" ++ "" ++ "\x7d\x7d") ≠ [""] :=
  ⟨by decide, by decide, by decide⟩

/-- **C9 (amended).**  For every message and every *non-empty* token `t` it
yields, re-wrapping the normalised token in a mustache span and extracting
again yields exactly `[t]` — round-trip stability holds for all non-empty
tokens. -/
theorem claim_c9_amended (m t : String) (ht : t ∈ extractPlaceholdersKeysFromMsg m)
    (hne : t ≠ "") :
    extractPlaceholdersKeysFromMsg ("\x7b\x7b" ++ t ++ "\x7d\x7d") = [t] :=
  extract_roundtrip m t ht hne

/-- Witness for the amended C9 at a concrete message and token. -/
theorem claim_c9_witness :
    ("var1" ∈ extractPlaceholdersKeysFromMsg ("This is \x7b\x7bvar1\x7d\x7d")) ∧
    extractPlaceholdersKeysFromMsg ("\x7b\x7b" ++ "var1" ++ "\x7d\x7d") = ["var1"] :=
  ⟨by decide,
   claim_c9_amended ("This is \x7b\x7bvar1\x7d\x7d") ("var1") (by decide) (by decide)⟩

/-- **C1.**  The claim says `checkTranslations` honours its per-call options
(`languages`, and the three switches defaulting to `true`).  It does not:
the destructured per-call values are never read — the result is identical
for any two callers' option objects — and because the module contains no
binding for the identifier `options` that the body reads first at line 54,
every call rejects with a `ReferenceError` instead of performing the run
described by its own JSDoc. -/
theorem claim_c1 (env : Env) (c₁ c₂ : CallOpts) (ov : Option OptionsObj) :
    checkTranslations env c₁ ov = checkTranslations env c₂ ov ∧
    checkTranslations env c₁ none = Except.error RunError.referenceError :=
  ⟨rfl, rfl⟩

/-- **C2.**  Findings are pure data: every non-extra file contributes its
findings to the aggregate list (a later file's findings survive an earlier
file's), and after all files are processed the body either returns the file
names (no findings) or throws exactly one `TranslationException` carrying
the fixed message, the full findings list and the full file-name list. -/
theorem claim_c2 (env : Env) (o : OptionsObj) :
    (bodyErrors env o = [] → checkTranslationsBody env o = Except.ok (bodyFileNames env o)) ∧
    (bodyErrors env o ≠ [] → checkTranslationsBody env o =
      Except.error (RunError.translationException ("Error trying to compile translations")
        (bodyErrors env o) (bodyFileNames env o))) ∧
    (∀ f ∈ bodyFileNames env o, f ≠ EX_FILE →
      (fileFindings env o f).Sublist (bodyErrors env o)) := by
  refine ⟨?_, ?_, ?_⟩
  · intro h
    unfold checkTranslationsBody
    rw [if_pos (by simp [h])]
  · intro h
    unfold checkTranslationsBody
    rw [if_neg (by simp [List.isEmpty_iff, h])]
  · intro f hf hne
    unfold bodyErrors
    apply sublist_flatten_of_mem
    exact List.mem_map.mpr ⟨f, List.mem_filter.mpr ⟨hf, by simp [hne]⟩, rfl⟩

def envC2 : Env :=
  ⟨fun _ => [("messages-es.properties")],
   fun _ => [("a", JsVal.str (""))],
   fun _ => none⟩

def optsC2 : OptionsObj := ⟨none, true, true, true⟩

/-- Witness for C2: one empty message makes the body throw the aggregate
exception with the fixed message, the findings and the file names. -/
theorem claim_c2_witness :
    bodyErrors envC2 optsC2 ≠ [] ∧
    checkTranslationsBody envC2 optsC2 =
      Except.error (RunError.translationException ("Error trying to compile translations")
        (bodyErrors envC2 optsC2) (bodyFileNames envC2 optsC2)) :=
  ⟨by decide, (claim_c2 envC2 optsC2).2.1 (by decide)⟩

/-- **C6.**  In every run of the body: the base and extra files are each
handed to the parser at most once; the extra file is excluded from
validation (the aggregate is exactly the concatenation of the findings of
the non-extra files, in order); the base file, when discovered, is still
validated and its findings are part of the aggregate; and a successful run
returns the full discovery list, the extra file included. -/
theorem claim_c6 (env : Env) (o : OptionsObj) (hnd : (bodyFileNames env o).Nodup) :
    List.count EN_FILE (bodyParseLog env o) ≤ 1 ∧
    List.count EX_FILE (bodyParseLog env o) ≤ 1 ∧
    bodyErrors env o =
      (((bodyFileNames env o).filter (fun f => f != EX_FILE)).map
        (fileFindings env o)).flatten ∧
    (EN_FILE ∈ bodyFileNames env o →
      (fileFindings env o EN_FILE).Sublist (bodyErrors env o)) ∧
    (∀ l, checkTranslationsBody env o = Except.ok l → l = bodyFileNames env o) := by
  refine ⟨?_, ?_, rfl, ?_, ?_⟩
  · unfold bodyParseLog
    rw [List.count_append, List.count_append]
    have hB : List.count EN_FILE
        (if o.checkPlaceholders && (bodyFileNames env o).contains EX_FILE
         then [EX_FILE] else []) = 0 := by
      split
      · decide
      · rfl
    rw [hB]
    by_cases hcp : (o.checkPlaceholders && (bodyFileNames env o).contains EN_FILE) = true
    · rw [if_pos hcp]
      have hC : List.count EN_FILE ((bodyFileNames env o).filter
          (fun f => !(o.checkPlaceholders && (f == EN_FILE))
            && !(o.checkPlaceholders && (f == EX_FILE)))) = 0 := by
        rw [List.count_eq_zero]
        intro hmem
        have hp := (List.mem_filter.mp hmem).2
        rw [Bool.and_eq_true] at hcp
        simp [hcp.1] at hp
      rw [hC]
      simp
    · rw [if_neg hcp]
      have hsubf : ((bodyFileNames env o).filter
          (fun f => !(o.checkPlaceholders && (f == EN_FILE))
            && !(o.checkPlaceholders && (f == EX_FILE)))).Sublist (bodyFileNames env o) :=
        List.filter_sublist _
      have h1 := hsubf.count_le EN_FILE
      have h2 := List.nodup_iff_count_le_one.mp hnd EN_FILE
      simp only [List.count_nil]
      omega
  · unfold bodyParseLog
    rw [List.count_append, List.count_append]
    have hA : List.count EX_FILE
        (if o.checkPlaceholders && (bodyFileNames env o).contains EN_FILE
         then [EN_FILE] else []) = 0 := by
      split
      · decide
      · rfl
    rw [hA]
    by_cases hcp : (o.checkPlaceholders && (bodyFileNames env o).contains EX_FILE) = true
    · rw [if_pos hcp]
      have hC : List.count EX_FILE ((bodyFileNames env o).filter
          (fun f => !(o.checkPlaceholders && (f == EN_FILE))
            && !(o.checkPlaceholders && (f == EX_FILE)))) = 0 := by
        rw [List.count_eq_zero]
        intro hmem
        have hp := (List.mem_filter.mp hmem).2
        rw [Bool.and_eq_true] at hcp
        simp [hcp.1, EX_FILE, EN_FILE] at hp
      rw [hC]
      simp
    · rw [if_neg hcp]
      have hsubf : ((bodyFileNames env o).filter
          (fun f => !(o.checkPlaceholders && (f == EN_FILE))
            && !(o.checkPlaceholders && (f == EX_FILE)))).Sublist (bodyFileNames env o) :=
        List.filter_sublist _
      have h1 := hsubf.count_le EX_FILE
      have h2 := List.nodup_iff_count_le_one.mp hnd EX_FILE
      simp only [List.count_nil]
      omega
  · intro hmem
    unfold bodyErrors
    apply sublist_flatten_of_mem
    exact List.mem_map.mpr ⟨EN_FILE, List.mem_filter.mpr ⟨hmem, by decide⟩, rfl⟩
  · intro l hl
    unfold checkTranslationsBody at hl
    split at hl
    · cases hl
      rfl
    · cases hl

def envC6 : Env :=
  ⟨fun _ => [("messages-en.properties"), ("messages-ex.properties"),
    ("messages-es.properties")],
   fun _ => [("a", JsVal.str ("hello"))],
   fun _ => none⟩

def optsC6 : OptionsObj := ⟨none, true, true, true⟩

/-- Witness for C6 on a discovery list holding the base, extra and one
ordinary file. -/
theorem claim_c6_witness :
    (bodyFileNames envC6 optsC6).Nodup ∧
    List.count EN_FILE (bodyParseLog envC6 optsC6) ≤ 1 ∧
    List.count EX_FILE (bodyParseLog envC6 optsC6) ≤ 1 :=
  ⟨by decide, (claim_c6 envC6 optsC6 (by decide)).1, (claim_c6 envC6 optsC6 (by decide)).2.1⟩

/-- **C10.**  With placeholder checking on and the base file absent from the
discovery list, the template index is built from the empty base set and is
present-but-empty (`some []`, not `none`); placeholder checks therefore run
and every string message with a placeholder span whose key has an own-index
entry yields a missed-placeholder finding in the aggregate. -/
theorem claim_c10 (env : Env) (o : OptionsObj)
    (hcp : o.checkPlaceholders = true)
    (hen : EN_FILE ∉ bodyFileNames env o) :
    bodyTemplate env o = some [] ∧
    (∀ f, f ∈ bodyFileNames env o → f ≠ EX_FILE →
      ∀ k s, (k, JsVal.str s) ∈ translationsFor env o f →
        mustacheSpans s ≠ [] →
        (List.lookup k (extractPlaceholdersFromTranslations
          (translationsFor env o f) [])).isSome = true →
        missedFinding (fileLanguage f) k ∈ bodyErrors env o) := by
  have hcont : (bodyFileNames env o).contains EN_FILE = false := by
    cases hx : (bodyFileNames env o).contains EN_FILE with
    | false => rfl
    | true => exact absurd (List.elem_iff.mp hx) hen
  have hentr : bodyEnTranslations env o = [] := by
    unfold bodyEnTranslations
    rw [hcont, Bool.and_false]
    rfl
  have htpl : bodyTemplate env o = some [] := by
    unfold bodyTemplate
    simp [hcp, hentr, extractPlaceholdersFromTranslations]
  refine ⟨htpl, ?_⟩
  intro f hf hfe k s hmem hspan hlk
  rcases Option.isSome_iff_exists.mp hlk with ⟨e, he⟩
  obtain ⟨own, heq, hownne⟩ := ownIndex_entry_toks (lookup_mem he)
  have he2 : List.lookup k (extractPlaceholdersFromTranslations
      (translationsFor env o f) []) = some (PEntry.toks own) := by
    rw [← heq]
    exact he
  have hs : hasMustache s = true := hasMustache_true_iff.mpr hspan
  have hstr := str_truthy_of_spans hspan
  have hmm : checkMsgFindings (fileLanguage f)
      (extractPlaceholdersFromTranslations (translationsFor env o f) []) (some [])
      (if o.checkMessageformat then env.mkMF (fileLanguage f) else none) o.checkEmpties
      k (JsVal.str s) = [missedFinding (fileLanguage f) k] :=
    checkMsgFindings_missed hstr hs he2 rfl rfl
  have hin : missedFinding (fileLanguage f) k ∈ fileFindings env o f := by
    unfold fileFindings
    rw [htpl]
    unfold checkFileTranslations
    apply List.mem_flatten.mpr
    refine ⟨_, List.mem_map.mpr ⟨(k, JsVal.str s), hmem, rfl⟩, ?_⟩
    rw [hmm]
    exact List.mem_singleton_self _
  have hsub : (fileFindings env o f).Sublist (bodyErrors env o) := by
    unfold bodyErrors
    apply sublist_flatten_of_mem
    exact List.mem_map.mpr ⟨f, List.mem_filter.mpr ⟨hf, by simp [hfe]⟩, rfl⟩
  exact hsub.subset hin

def envC10 : Env :=
  ⟨fun _ => [("messages-es.properties")],
   fun _ => [("greeting", JsVal.str ("Hola \x7b\x7bnombre\x7d\x7d"))],
   fun _ => none⟩

def optsC10 : OptionsObj := ⟨none, true, true, true⟩

/-- Witness for C10: base file undiscovered, one placeholder-bearing message
in the checked file yields a missed-placeholder finding. -/
theorem claim_c10_witness :
    missedFinding ("es") ("greeting") ∈ bodyErrors envC10 optsC10 :=
  (claim_c10 envC10 optsC10 rfl (by decide)).2 ("messages-es.properties") (by decide)
    (by decide) ("greeting") ("Hola \x7b\x7bnombre\x7d\x7d") (by decide) (by decide)
    (by decide)
